import Mathlib

/-
  Verification development for the xgen Ruby code generator
  (ruby.go, together with the shared helpers in utils.go).

  The Go code is shallowly embedded: every definition below mirrors one Go
  function or declaration, working over `String`/`List Char` with structural
  recursion only, so that every definition kernel-evaluates on concrete
  inputs.  Go's byte-oriented case functions are modelled with ASCII case
  maps (all inputs of interest are ASCII).
-/

namespace Xgen

/-- Accumulator for splitting a character list at a separator character.
    Models Go's strings.Split for a single-character separator. -/
def splitOnCharAux (sep : Char) : List Char → List Char → List (List Char)
  | [], acc => [acc.reverse]
  | c :: rest, acc =>
    if c = sep then acc.reverse :: splitOnCharAux sep rest []
    else splitOnCharAux sep rest (c :: acc)

/-- Models Go strings.Split(s, sep) for a one-character separator `sep`. -/
def strSplitOn (sep : Char) (s : String) : List String :=
  (splitOnCharAux sep s.data []).map String.mk

/-- Models Go strings.Replace(s, c, "", -1): delete every occurrence of the
    one-character pattern `c`. -/
def strRemoveChar (c : Char) (s : String) : String :=
  String.mk (s.data.filter (fun x => x ≠ c))

/-- Character-list core of replacing the one-character pattern `c` by the
    string `r` (the replacement is not rescanned, as in Go). -/
def replaceCharList (c : Char) (r : List Char) : List Char → List Char
  | [] => []
  | x :: rest =>
    if x = c then r ++ replaceCharList c r rest
    else x :: replaceCharList c r rest

/-- Models Go strings.Replace(s, c, r, -1) for a one-character pattern. -/
def strReplaceChar (c : Char) (r : String) (s : String) : String :=
  String.mk (replaceCharList c r.data s.data)

/-- ASCII upper-casing of a whole string (Go strings.ToUpper / bytes.ToUpper
    restricted to ASCII input). -/
def strToUpper (s : String) : String :=
  String.mk (s.data.map Char.toUpper)

/-- ASCII lower-casing of a whole string (Go strings.ToLower restricted to
    ASCII input). -/
def strToLower (s : String) : String :=
  String.mk (s.data.map Char.toLower)

/-- Embeds utils.go MakeFirstUpperCase: strings shorter than two characters
    are fully upper-cased, otherwise only the first character is. -/
def MakeFirstUpperCase (s : String) : String :=
  if s.length < 2 then strToUpper s
  else
    match s.data with
    | [] => s
    | c :: rest => String.mk (c.toUpper :: rest)

/-- Character-list core of ToSnakeCase's regexp pass: insert an underscore
    between a lower-case-or-digit character and an immediately following
    upper-case character, consuming matches left to right without overlap,
    as regexp ReplaceAllString does for the pattern in utils.go. -/
def snakeAux (prev : Char) : List Char → List Char
  | [] => [prev]
  | b :: rest =>
    if (prev.isLower || prev.isDigit) && b.isUpper then prev :: '_' :: snakeAux b rest
    else prev :: snakeAux b rest

/-- Entry point of the regexp pass.  Carrying the previous character is
    equivalent to the consume-two-on-match scan: a character consumed as the
    second half of a match is upper-case, so it can never begin a match. -/
def snakeStep : List Char → List Char
  | [] => []
  | a :: rest => snakeAux a rest

/-- Embeds utils.go ToSnakeCase: the regexp underscore-insertion pass, then
    hyphens to underscores, then lower-casing. -/
def ToSnakeCase (input : String) : String :=
  let output := String.mk (snakeStep input.data)
  strToLower (strReplaceChar '-' "_" output)

/-- Embeds utils.go trimNSPrefix: strip the namespace prefix when the string
    splits on the colon into exactly two parts, else return it unchanged. -/
def trimNSPrefix (str : String) : String :=
  match strSplitOn ':' str with
  | [_, name] => name
  | _ => str

/-- Embeds utils.go genFieldComment (the strings.NewReplacer pair of
    single-character patterns is applied as two independent passes, which
    coincides with the simultaneous replacement since the replacement text
    contains no tab). -/
def genFieldComment (name doc pre : String) : String :=
  if doc = "" then "\r\n" ++ pre ++ " " ++ name ++ " ...\r\n"
  else
    "\r\n" ++ pre ++ " " ++ name ++ " is " ++
      strRemoveChar '\t' (strReplaceChar '\n' ("\r\n" ++ pre ++ " ") doc) ++ "\r\n"

/- ===================== Proto tree (IR) ===================== -/

/-- Modelled from the spec (§3, node shapes; the struct declarations live
    outside the provided sources, their fields are fixed by the generator's
    uses): a top-level or nested element. `Type'` stands for the Go field
    `Type` (a Lean keyword). -/
structure Element where
  Name : String
  Doc : String
  Type' : String
  Plural : Bool

/-- Modelled from the spec (§3): an attribute node. -/
structure Attribute where
  Name : String
  Doc : String
  Type' : String
  Plural : Bool

/-- Modelled from the spec (§3): a simple type node.  `MemberTypes` models
    the Go map from member-type name to member-type reference together with
    the enumeration order a given run of Go's map range produces; that order
    is unspecified by Go and may differ between two runs over the same map.
    The field `List` mirrors the Go flag of the same name. -/
structure SimpleType where
  Name : String
  Doc : String
  Base : String
  MemberTypes : List (String × String)
  List : Bool
  Union : Bool

/-- Modelled from the spec (§3): a group node; nested groups are groups
    themselves, so this is a nested inductive. -/
inductive Group where
  | mk : (Name : String) → (Doc : String) → (Ref : String) → (Plural : Bool) →
      (Elements : List Element) → (Groups : List Group) → Group

def Group.Name : Group → String
  | ⟨n, _, _, _, _, _⟩ => n

def Group.Doc : Group → String
  | ⟨_, d, _, _, _, _⟩ => d

def Group.Ref : Group → String
  | ⟨_, _, r, _, _, _⟩ => r

def Group.Plural : Group → Bool
  | ⟨_, _, _, p, _, _⟩ => p

def Group.Elements : Group → List Element
  | ⟨_, _, _, _, es, _⟩ => es

def Group.Groups : Group → List Group
  | ⟨_, _, _, _, _, gs⟩ => gs

/-- Modelled from the spec (§3): an attribute-group node. -/
structure AttributeGroup where
  Name : String
  Doc : String
  Ref : String
  Attributes : List Attribute

/-- Modelled from the spec (§3): a complex type node.  `AttributeGroups`
    stands for the Go field `AttributeGroup` (renamed to avoid shadowing the
    type of its own entries). -/
structure ComplexType where
  Name : String
  Doc : String
  AttributeGroups : List AttributeGroup
  Attributes : List Attribute
  Groups : List Group
  Elements : List Element

/-- One entry of the proto tree: the heterogeneous []interface with the six
    construct kinds the Ruby generator dispatches on (nil entries of the Go
    slice are skipped by every consumer and are therefore dropped from the
    model). -/
inductive ProtoNode where
  | ofSimpleType (v : SimpleType)
  | ofComplexType (v : ComplexType)
  | ofGroup (v : Group)
  | ofAttributeGroup (v : AttributeGroup)
  | ofElement (v : Element)
  | ofAttribute (v : Attribute)

/-- Schema name carried by a node (each Go struct's Name field). -/
def ProtoNode.name : ProtoNode → String
  | .ofSimpleType v => v.Name
  | .ofComplexType v => v.Name
  | .ofGroup v => v.Name
  | .ofAttributeGroup v => v.Name
  | .ofElement v => v.Name
  | .ofAttribute v => v.Name

/-- Embeds utils.go getBasefromSimpleType: one linear scan over the tree;
    a non-list non-union SimpleType with the name yields its Base, an
    Attribute or Element with the name yields its Type, other nodes are
    skipped; with no match the name is returned unchanged. -/
def getBasefromSimpleType (name : String) (XSDSchema : List ProtoNode) : String :=
  match XSDSchema with
  | [] => name
  | ele :: rest =>
    match ele with
    | .ofSimpleType v =>
      if v.List = false ∧ v.Union = false ∧ v.Name = name then v.Base
      else getBasefromSimpleType name rest
    | .ofAttribute v =>
      if v.Name = name then v.Type' else getBasefromSimpleType name rest
    | .ofElement v =>
      if v.Name = name then v.Type' else getBasefromSimpleType name rest
    | _ => getBasefromSimpleType name rest

/- ===================== Built-in type tables ===================== -/

/-- Embeds the keys of ruby.go's rubyBuildinType map (all values are true,
    so only membership matters). -/
def rubyBuildinType : List String :=
  ["Array", "Decimal", "decimal", "Float", "float", "String", "string",
   "Time", "Date", "DateTime", "Integer", "Number"]

/-- Embeds utils.go BuildInTypes: XSD type name to the row of language
    spellings in column order Go, TypeScript, C, Java, Rust, Ruby. -/
def BuildInTypes : List (String × List String) :=
  [("anyType", ["string", "string", "char", "String", "String", "String"]),
   ("ENTITIES", ["[]string", "Array<string>", "char[]", "List<String>", "Vec<String>", "Array"]),
   ("ENTITY", ["string", "string", "char", "String", "String", "String"]),
   ("ID", ["string", "string", "char", "String", "String", "String"]),
   ("IDREF", ["string", "string", "char", "String", "String", "String"]),
   ("IDREFS", ["[]string", "Array<string>", "char[]", "List<String>", "Vec<String>", "Array"]),
   ("NCName", ["string", "string", "char", "String", "String", "String"]),
   ("NMTOKEN", ["string", "string", "char", "String", "String", "String"]),
   ("NMTOKENS", ["[]string", "Array<string>", "char[]", "List<String>", "Vec<String>", "Array"]),
   ("NOTATION", ["[]string", "Array<string>", "char[]", "List<String>", "Vec<String>", "Array"]),
   ("Name", ["string", "string", "char", "String", "String", "String"]),
   ("QName", ["xml.Name", "any", "char", "String", "String", "String"]),
   ("anyURI", ["string", "string", "char", "QName", "String", "String"]),
   ("base64Binary", ["[]byte", "Uint8Array", "char[]", "List<Byte>", "String", "Array"]),
   ("boolean", ["bool", "boolean", "bool", "Boolean", "bool", "Boolean"]),
   ("byte", ["byte", "any", "char[]", "Byte", "u8", "String"]),
   ("date", ["time.Time", "string", "char", "Byte", "u8", "Date"]),
   ("dateTime", ["time.Time", "string", "char", "Byte", "u8", "DateTime"]),
   ("decimal", ["float64", "number", "float", "Float", "f64", "Float"]),
   ("double", ["float64", "number", "float", "Float", "f64", "Float"]),
   ("duration", ["string", "string", "char", "String", "String", "String"]),
   ("float", ["float", "number", "float", "Float", "f64", "Float"]),
   ("gDay", ["time.Time", "string", "char", "String", "String", "String"]),
   ("gMonth", ["time.Time", "string", "char", "String", "String", "String"]),
   ("gMonthDay", ["time.Time", "string", "char", "String", "String", "String"]),
   ("gYear", ["time.Time", "string", "char", "String", "String", "String"]),
   ("gYearMonth", ["time.Time", "string", "char", "String", "String", "String"]),
   ("hexBinary", ["[]byte", "Uint8Array", "char[]", "List<Byte>", "String", "Array"]),
   ("int", ["int", "number", "int", "Integer", "i32", "Integer"]),
   ("integer", ["int", "number", "int", "Integer", "i32", "Integer"]),
   ("language", ["string", "string", "char", "String", "String", "String"]),
   ("long", ["int64", "number", "int", "Long", "i64", "Integer"]),
   ("negativeInteger", ["int", "number", "int", "Integer", "i32", "Integer"]),
   ("nonNegativeInteger", ["int", "number", "int", "Integer", "u32", "Integer"]),
   ("normalizedString", ["string", "string", "char", "String", "String", "String"]),
   ("nonPositiveInteger", ["int", "number", "int", "Integer", "i32", "Integer"]),
   ("positiveInteger", ["int", "number", "int", "Integer", "u32", "Integer"]),
   ("short", ["int16", "number", "int", "Integer", "i16", "Integer"]),
   ("string", ["string", "string", "char", "String", "String", "String"]),
   ("time", ["time.Time", "string", "char", "String", "String", "Time"]),
   ("token", ["string", "string", "char", "String", "String", "String"]),
   ("unsignedByte", ["byte", "any", "char", "Byte", "u8", "String"]),
   ("unsignedInt", ["uint32", "number", "unsigned int", "Integer", "u32", "Integer"]),
   ("unsignedLong", ["uint64", "number", "unsigned int", "Long", "u64", "Bignum"]),
   ("unsignedShort", ["uint16", "number", "unsigned int", "Short", "u16", "Integer"]),
   ("xml:lang", ["string", "string", "char", "String", "String", "String"]),
   ("xml:space", ["string", "string", "char", "String", "String", "String"]),
   ("xml:base", ["string", "string", "char", "String", "String", "String"]),
   ("xml:id", ["string", "string", "char", "String", "String", "String"])]

/-- First-match association lookup, the behaviour of a Go map read for a
    duplicate-free table. -/
def tableLookup : List (String × List String) → String → Option (List String)
  | [], _ => none
  | (k, v) :: rest, key => if k = key then some v else tableLookup rest key

/-- Embeds the supportLang map of utils.go getBuildInTypeByLang; a Go map
    read of an absent key yields the zero value 0. -/
def supportLangIdx (lang : String) : Nat :=
  if lang = "Go" then 0
  else if lang = "TypeScript" then 1
  else if lang = "C" then 2
  else if lang = "Java" then 3
  else if lang = "Rust" then 4
  else if lang = "Ruby" then 5
  else 0

/-- Embeds utils.go getBuildInTypeByLang.  The result pairs the spelling
    with the Go `ok` flag; the outer `none` models the Go slice-index panic
    when the language index exceeds the row length (proved unreachable). -/
def getBuildInTypeByLang (value lang : String) : Option (String × Bool) :=
  match tableLookup BuildInTypes value with
  | none => some ("", false)
  | some row => (row.get? (supportLangIdx lang)).map (fun t => (t, true))

/- ===================== Ruby identifier construction ===================== -/

/-- The += loop pattern of ruby.go: concatenate the parts, upper-casing the
    first letter of each. -/
def concatUpper (parts : List String) : String :=
  parts.foldl (fun acc p => acc ++ MakeFirstUpperCase p) ""

/-- Embeds ruby.go genRubyFieldName: concatenate colon-separated parts with
    first letters upper-cased, then dot-separated parts likewise, then drop
    every hyphen and underscore. -/
def genRubyFieldName (name : String) : String :=
  let fieldName := concatUpper (strSplitOn ':' name)
  let fieldName := concatUpper (strSplitOn '.' fieldName)
  strRemoveChar '_' (strRemoveChar '-' fieldName)

/-- The normalisation mid-section of ruby.go genRubyFieldType: concatenate
    dot-separated parts with first letters upper-cased, drop hyphens,
    upper-case the first letter again, drop underscores. -/
def rubyNormalize (name : String) : String :=
  let fieldType := concatUpper (strSplitOn '.' name)
  strRemoveChar '_' (MakeFirstUpperCase (strRemoveChar '-' fieldType))

/-- Embeds ruby.go genRubyFieldType: Ruby built-in spellings are returned
    verbatim; otherwise the normalised name, or "String" when the
    normalisation is empty. -/
def genRubyFieldType (name : String) : String :=
  if rubyBuildinType.contains name then name
  else if rubyNormalize name ≠ "" then rubyNormalize name
  else "String"

/-- The composition the ruby.go emitters apply at every reference site:
    genRubyFieldType(getBasefromSimpleType( trimNSPrefix(ref), tree)). -/
def rubyFieldTypeOf (ref : String) (tree : List ProtoNode) : String :=
  genRubyFieldType (getBasefromSimpleType ( trimNSPrefix ref) tree)

/- ===================== Generation state ===================== -/

/-- Modelled from the spec (§3, Generation State; the CodeGenerator struct
    declaration lives outside the provided sources): the StructAST cache
    (a Go map, here a duplicate-free association list), the Field
    accumulator, and the ImportEncodingXML flag.  Created empty at the
    start of a run. -/
structure GenState where
  StructAST : List (String × String)
  Field : String
  ImportEncodingXML : Bool

/-- Go map read on the StructAST cache. -/
def astLookup : List (String × String) → String → Option String
  | [], _ => none
  | (k, v) :: rest, key => if k = key then some v else astLookup rest key

/-- Empty generation state at the start of a run. -/
def initGenState : GenState := ⟨[], "", false⟩

/-- The tag line emitted when the computed identifier differs from the raw
    schema name: fmt.Sprintf of ruby.go lines 103, 136, 182, 215. -/
def rubyTag (name : String) : String := "\t\ttag \"" ++ name ++ "\"\n"

/- ===================== Per-kind content builders ===================== -/

/-- Union member line, ruby.go lines 106-112: an empty member reference is
    resolved by a tree lookup of the member name (the order of the pairs is
    the enumeration order of the Go map range). -/
def unionMemberLine (tree : List ProtoNode) (p : String × String) : String :=
  let memberType := if p.2 = "" then getBasefromSimpleType p.1 tree else p.2
  "\t\tattribute :" ++ ToSnakeCase (genRubyFieldName p.1) ++ ", \x27OTA::" ++
    genRubyFieldType memberType ++ "\x27, tag: \x27" ++ p.1 ++ "\x27\n"

/-- Content of a union SimpleType declaration, ruby.go lines 99-113. -/
def rubyUnionContent (tree : List ProtoNode) (v : SimpleType) : String :=
  (if genRubyFieldName v.Name ≠ v.Name then rubyTag v.Name else "") ++
    (String.join (v.MemberTypes.map (unionMemberLine tree)) ++ "\tend\n")

/-- Attribute-group member line of a ComplexType, ruby.go lines 138-142;
    note the tag is the normalised name here, not the raw one. -/
def ctAttrGroupLine (tree : List ProtoNode) (ag : AttributeGroup) : String :=
  let fieldType := getBasefromSimpleType ( trimNSPrefix ag.Ref) tree
  "\t\telement :" ++ ToSnakeCase (genRubyFieldName ag.Name) ++ ", \x27OTA::" ++
    genRubyFieldType fieldType ++ "\x27, tag: \x27" ++ genRubyFieldName ag.Name ++ "\x27\n"

/-- Attribute member line of a ComplexType, ruby.go lines 144-151. -/
def ctAttributeLine (tree : List ProtoNode) (a : Attribute) : String :=
  let plural := if a.Plural then "has_many" else "attribute"
  "\t\t" ++ plural ++ " :" ++ ToSnakeCase (genRubyFieldName a.Name) ++ ", \x27OTA::" ++
    rubyFieldTypeOf a.Type' tree ++ "\x27, tag: \x27" ++ a.Name ++ "\x27\n"

/-- Group member line of a ComplexType, ruby.go lines 152-158: the plural
    variable starts empty and the Plural branch assigns the empty string
    again, exactly as in the source. -/
def ctGroupLine (tree : List ProtoNode) (g : Group) : String :=
  let plural : String := if g.Plural then "" else ""
  "\t" ++ ToSnakeCase (genRubyFieldName g.Name) ++ "\t" ++ plural ++
    rubyFieldTypeOf g.Ref tree ++ "\n"

/-- Element member line of a ComplexType, ruby.go lines 160-167. -/
def ctElementLine (tree : List ProtoNode) (e : Element) : String :=
  let plural := if e.Plural then "has_many" else "element"
  "\t\t" ++ plural ++ " :" ++ ToSnakeCase (genRubyFieldName e.Name) ++ ", \x27OTA::" ++
    rubyFieldTypeOf e.Type' tree ++ "\x27, tag: \x27" ++ e.Name ++ "\x27\n"

/-- Content of a ComplexType declaration, ruby.go lines 132-168. -/
def rubyComplexTypeContent (tree : List ProtoNode) (v : ComplexType) : String :=
  (if genRubyFieldName v.Name ≠ v.Name then rubyTag v.Name else "") ++
    (String.join (v.AttributeGroups.map (ctAttrGroupLine tree)) ++
      (String.join (v.Attributes.map (ctAttributeLine tree)) ++
        (String.join (v.Groups.map (ctGroupLine tree)) ++
          (String.join (v.Elements.map (ctElementLine tree)) ++ "\tend\n"))))

/-- Element member line of a Group, ruby.go lines 184-191: as with group
    references, the Plural branch assigns the empty string. -/
def groupElementLine (tree : List ProtoNode) (e : Element) : String :=
  let plural : String := if e.Plural then "" else ""
  "\t" ++ ToSnakeCase (genRubyFieldName e.Name) ++ "\t" ++ plural ++
    rubyFieldTypeOf e.Type' tree ++ "\n"

/-- Nested-group member line of a Group, ruby.go lines 193-199. -/
def groupGroupLine (tree : List ProtoNode) (g : Group) : String :=
  let plural : String := if g.Plural then "" else ""
  "\t" ++ ToSnakeCase (genRubyFieldName g.Name) ++ "\t" ++ plural ++
    rubyFieldTypeOf g.Ref tree ++ "\n"

/-- Content of a Group declaration, ruby.go lines 178-200. -/
def rubyGroupContent (tree : List ProtoNode) (v : Group) : String :=
  (if genRubyFieldName v.Name ≠ v.Name then rubyTag v.Name else "") ++
    (String.join (v.Elements.map (groupElementLine tree)) ++
      (String.join (v.Groups.map (groupGroupLine tree)) ++ "\tend\n"))

/-- Attribute member line of an AttributeGroup, ruby.go lines 217-221. -/
def agAttributeLine (tree : List ProtoNode) (a : Attribute) : String :=
  "\t\tattribute :" ++ ToSnakeCase (genRubyFieldName a.Name) ++ ", \x27OTA::" ++
    rubyFieldTypeOf a.Type' tree ++ "\x27, tag: \x27" ++ a.Name ++ "\x27\n"

/-- Content of an AttributeGroup declaration, ruby.go lines 211-222. -/
def rubyAttributeGroupContent (tree : List ProtoNode) (v : AttributeGroup) : String :=
  (if genRubyFieldName v.Name ≠ v.Name then rubyTag v.Name else "") ++
    (String.join (v.Attributes.map (agAttributeLine tree)) ++ "\tend\n")

/-- Content of a top-level Element declaration, ruby.go lines 232-236: the
    resolved type, overridden by Array when the plurality flag is set. -/
def rubyElementContent (tree : List ProtoNode) (v : Element) : String :=
  let plural := if v.Plural then "Array" else rubyFieldTypeOf v.Type' tree
  " < " ++ plural ++ "; "

/-- Content of a top-level Attribute declaration, ruby.go lines 247-251. -/
def rubyAttributeContent (tree : List ProtoNode) (v : Attribute) : String :=
  let plural := if v.Plural then "Array" else rubyFieldTypeOf v.Type' tree
  " < " ++ plural ++ "; "

/- ===================== Per-kind emission routines ===================== -/

/-- Emission step of the list branch of RubySimpleType, ruby.go lines
    88-95 (note genRubyFieldType is applied twice there). -/
def rubySimpleTypeEmitList (tree : List ProtoNode) (s : GenState) (v : SimpleType) : GenState :=
  let fieldType := genRubyFieldType (getBasefromSimpleType ( trimNSPrefix v.Base) tree)
  let content := " " ++ genRubyFieldType fieldType
  let fieldName := genRubyFieldName v.Name
  ⟨(v.Name, content) :: s.StructAST,
   s.Field ++ (genFieldComment fieldName v.Doc "#" ++ ("\nclass " ++ (fieldName ++
     (" < " ++ (content ++ "; end\n"))))),
   s.ImportEncodingXML⟩

/-- Emission step of the union branch of RubySimpleType, ruby.go lines
    98-115. -/
def rubySimpleTypeEmitUnion (tree : List ProtoNode) (s : GenState) (v : SimpleType) : GenState :=
  let fieldName := genRubyFieldName v.Name
  let content := rubyUnionContent tree v
  ⟨(v.Name, content) :: s.StructAST,
   s.Field ++ ("\t" ++ (genFieldComment fieldName v.Doc "#" ++ ("\tclass " ++ (fieldName ++
     ("\n\t\tinclude XmlMapper\n\n" ++ (content ++ "\n")))))),
   if fieldName ≠ v.Name then true else s.ImportEncodingXML⟩

/-- Emission step of the plain branch of RubySimpleType, ruby.go lines
    119-124. -/
def rubySimpleTypeEmitPlain (tree : List ProtoNode) (s : GenState) (v : SimpleType) : GenState :=
  let content := " " ++ genRubyFieldType (getBasefromSimpleType ( trimNSPrefix v.Base) tree)
  let fieldName := genRubyFieldName v.Name
  ⟨(v.Name, content) :: s.StructAST,
   s.Field ++ ("\t" ++ (genFieldComment fieldName v.Doc "#" ++ ("\tclass " ++ (fieldName ++
     (" <" ++ (content ++ "; end\n")))))),
   s.ImportEncodingXML⟩

/-- Embeds ruby.go RubySimpleType, preserving its control flow: a cached
    list-flagged node falls through to the union test, then to the plain
    branch; every emission is guarded by a StructAST cache miss. -/
def rubySimpleType (tree : List ProtoNode) (s : GenState) (v : SimpleType) : GenState :=
  if v.List = true ∧ astLookup s.StructAST v.Name = none then
    rubySimpleTypeEmitList tree s v
  else if v.Union = true ∧ 0 < v.MemberTypes.length then
    if astLookup s.StructAST v.Name = none then rubySimpleTypeEmitUnion tree s v else s
  else if astLookup s.StructAST v.Name = none then rubySimpleTypeEmitPlain tree s v
  else s

/-- Embeds ruby.go RubyComplexType. -/
def rubyComplexType (tree : List ProtoNode) (s : GenState) (v : ComplexType) : GenState :=
  if astLookup s.StructAST v.Name = none then
    let fieldName := genRubyFieldName v.Name
    let content := rubyComplexTypeContent tree v
    ⟨(v.Name, content) :: s.StructAST,
     s.Field ++ ("\t" ++ (genFieldComment fieldName v.Doc "#" ++ ("\tclass " ++ (fieldName ++
       ("\n\t\tinclude XmlMapper\n\n" ++ content))))),
     if fieldName ≠ v.Name then true else s.ImportEncodingXML⟩
  else s

/-- Embeds ruby.go RubyGroup. -/
def rubyGroup (tree : List ProtoNode) (s : GenState) (v : Group) : GenState :=
  if astLookup s.StructAST v.Name = none then
    let fieldName := genRubyFieldName v.Name
    let content := rubyGroupContent tree v
    ⟨(v.Name, content) :: s.StructAST,
     s.Field ++ ("\t" ++ (genFieldComment fieldName v.Doc "#" ++ ("\tclass " ++ (fieldName ++
       ("\n\t\tinclude XmlMapper\n\n" ++ content))))),
     if fieldName ≠ v.Name then true else s.ImportEncodingXML⟩
  else s

/-- Embeds ruby.go RubyAttributeGroup. -/
def rubyAttributeGroup (tree : List ProtoNode) (s : GenState) (v : AttributeGroup) : GenState :=
  if astLookup s.StructAST v.Name = none then
    let fieldName := genRubyFieldName v.Name
    let content := rubyAttributeGroupContent tree v
    ⟨(v.Name, content) :: s.StructAST,
     s.Field ++ ("\t" ++ (genFieldComment fieldName v.Doc "#" ++ ("\tclass " ++ (fieldName ++
       ("\n\t\tinclude XmlMapper\n\n" ++ content))))),
     if fieldName ≠ v.Name then true else s.ImportEncodingXML⟩
  else s

/-- Embeds ruby.go RubyElement: a minimal alias declaration with no tag. -/
def rubyElement (tree : List ProtoNode) (s : GenState) (v : Element) : GenState :=
  if astLookup s.StructAST v.Name = none then
    let content := rubyElementContent tree v
    let fieldName := genRubyFieldName v.Name
    ⟨(v.Name, content) :: s.StructAST,
     s.Field ++ ("\t" ++ (genFieldComment fieldName v.Doc "#" ++ ("\tclass " ++ (fieldName ++
       (content ++ "end\n"))))),
     s.ImportEncodingXML⟩
  else s

/-- Embeds ruby.go RubyAttribute. -/
def rubyAttribute (tree : List ProtoNode) (s : GenState) (v : Attribute) : GenState :=
  if astLookup s.StructAST v.Name = none then
    let content := rubyAttributeContent tree v
    let fieldName := genRubyFieldName v.Name
    ⟨(v.Name, content) :: s.StructAST,
     s.Field ++ ("\t" ++ (genFieldComment fieldName v.Doc "#" ++ ("\tclass " ++ (fieldName ++
       (content ++ "end\n"))))),
     s.ImportEncodingXML⟩
  else s

/-- The dispatch of GenRuby, ruby.go lines 39-45: the routine named
    Ruby<kind> is invoked for each node; all six kinds have a routine. -/
def processNode (tree : List ProtoNode) (s : GenState) : ProtoNode → GenState
  | .ofSimpleType v => rubySimpleType tree s v
  | .ofComplexType v => rubyComplexType tree s v
  | .ofGroup v => rubyGroup tree s v
  | .ofAttributeGroup v => rubyAttributeGroup tree s v
  | .ofElement v => rubyElement tree s v
  | .ofAttribute v => rubyAttribute tree s v

/-- One generation pass continued from a given state. -/
def runPassFrom (tree : List ProtoNode) (s : GenState) (nodes : List ProtoNode) : GenState :=
  nodes.foldl (processNode tree) s

/-- One full generation pass of GenRuby over the proto tree, starting from
    the empty generation state. -/
def runPass (tree : List ProtoNode) : GenState :=
  runPassFrom tree initGenState tree

/-- The assembled source text written by GenRuby, ruby.go line 51. -/
def genRubySource (field : String) : String :=
  "# frozen_string_literal: true\n\n" ++ "# Code generated by xgen. DO NOT EDIT." ++
    "\n\nrequire \x27xmlmapper\x27\n\nmodule Ota\n\t" ++ field ++ "\nend"

/-- Embeds the I/O tail of GenRuby, ruby.go lines 46-53: the os.Create
    result and the f.Write result are passed in as the outcomes of the two
    fallible calls (none = success).  A create failure is returned at once;
    after a successful create the Write result is dropped on the floor and
    the function returns `err`, which still holds the nil from os.Create. -/
def genRubyIOResult (createErr : Option String) (_writeErr : Option String) : Option String :=
  match createErr with
  | some e => some e
  | none => none

/- ===================== Auxiliary notions for the theorems ===================== -/

/-- Boolean prefix test on character lists. -/
def isPrefixOfCL : List Char → List Char → Bool
  | [], _ => true
  | _ :: _, [] => false
  | a :: as, b :: bs => a == b && isPrefixOfCL as bs

/-- Boolean substring test on character lists. -/
def containsCL (pat : List Char) : List Char → Bool
  | [] => isPrefixOfCL pat []
  | c :: rest => isPrefixOfCL pat (c :: rest) || containsCL pat rest

/-- Whether `pat` occurs as a contiguous substring of `s`. -/
def strContains (s pat : String) : Bool := containsCL pat.data s.data

/-- Spec-side definition (following §4.3's wording restated as a first-match
    scan): what a single node contributes to base resolution — a non-list
    non-union SimpleType yields its Base, an Attribute or Element its Type. -/
def nodeBaseMatch (name : String) : ProtoNode → Option String
  | .ofSimpleType v =>
    if v.List = false ∧ v.Union = false ∧ v.Name = name then some v.Base else none
  | .ofAttribute v => if v.Name = name then some v.Type' else none
  | .ofElement v => if v.Name = name then some v.Type' else none
  | _ => none

/- ===================== Cache lemmas ===================== -/

theorem astLookup_nil (k : String) : astLookup [] k = none := rfl

theorem astLookup_cons (k' v : String) (l : List (String × String)) (k : String) :
    astLookup ((k', v) :: l) k = if k' = k then some v else astLookup l k := rfl

/-- Inserting a fresh key does not disturb the entry of another key. -/
theorem astLookup_insert_other {l : List (String × String)} {k n c w : String}
    (hg : astLookup l k = none) (h : astLookup l n = some w) :
    astLookup ((k, c) :: l) n = some w := by
  have hne : k ≠ n := by
    intro he
    rw [he] at hg
    rw [hg] at h
    exact Option.noConfusion h
  rw [astLookup_cons, if_neg hne]
  exact h

/-- A routine invoked on a node whose name is already cached leaves the
    generation state untouched. -/
theorem processNode_cached (tree : List ProtoNode) (s : GenState) (nd : ProtoNode)
    (h : astLookup s.StructAST nd.name ≠ none) : processNode tree s nd = s := by
  cases nd with
  | ofSimpleType v =>
    have h' : astLookup s.StructAST v.Name ≠ none := h
    show rubySimpleType tree s v = s
    unfold rubySimpleType
    have hc1 : ¬(v.List = true ∧ astLookup s.StructAST v.Name = none) := fun hc => h' hc.2
    rw [if_neg hc1]
    by_cases hc2 : v.Union = true ∧ 0 < v.MemberTypes.length
    · rw [if_pos hc2, if_neg h']
    · rw [if_neg hc2, if_neg h']
  | ofComplexType v =>
    have h' : astLookup s.StructAST v.Name ≠ none := h
    show rubyComplexType tree s v = s
    unfold rubyComplexType
    rw [if_neg h']
  | ofGroup v =>
    have h' : astLookup s.StructAST v.Name ≠ none := h
    show rubyGroup tree s v = s
    unfold rubyGroup
    rw [if_neg h']
  | ofAttributeGroup v =>
    have h' : astLookup s.StructAST v.Name ≠ none := h
    show rubyAttributeGroup tree s v = s
    unfold rubyAttributeGroup
    rw [if_neg h']
  | ofElement v =>
    have h' : astLookup s.StructAST v.Name ≠ none := h
    show rubyElement tree s v = s
    unfold rubyElement
    rw [if_neg h']
  | ofAttribute v =>
    have h' : astLookup s.StructAST v.Name ≠ none := h
    show rubyAttribute tree s v = s
    unfold rubyAttribute
    rw [if_neg h']

/-- A routine invoked on a node whose name is not yet cached stores a
    fragment in the cache under the node's name and appends to the
    accumulator. -/
theorem processNode_fresh (tree : List ProtoNode) (s : GenState) (nd : ProtoNode)
    (h : astLookup s.StructAST nd.name = none) :
    ∃ c frag, (processNode tree s nd).StructAST = (nd.name, c) :: s.StructAST ∧
      (processNode tree s nd).Field = s.Field ++ frag := by
  cases nd with
  | ofSimpleType v =>
    have h' : astLookup s.StructAST v.Name = none := h
    show ∃ c frag, (rubySimpleType tree s v).StructAST = (v.Name, c) :: s.StructAST ∧
      (rubySimpleType tree s v).Field = s.Field ++ frag
    unfold rubySimpleType
    by_cases hL : v.List = true
    · rw [if_pos ⟨hL, h'⟩]
      exact ⟨_, _, rfl, rfl⟩
    · have hc1 : ¬(v.List = true ∧ astLookup s.StructAST v.Name = none) := fun hc => hL hc.1
      rw [if_neg hc1]
      by_cases hc2 : v.Union = true ∧ 0 < v.MemberTypes.length
      · rw [if_pos hc2, if_pos h']
        exact ⟨_, _, rfl, rfl⟩
      · rw [if_neg hc2, if_pos h']
        exact ⟨_, _, rfl, rfl⟩
  | ofComplexType v =>
    have h' : astLookup s.StructAST v.Name = none := h
    show ∃ c frag, (rubyComplexType tree s v).StructAST = (v.Name, c) :: s.StructAST ∧
      (rubyComplexType tree s v).Field = s.Field ++ frag
    unfold rubyComplexType
    rw [if_pos h']
    exact ⟨_, _, rfl, rfl⟩
  | ofGroup v =>
    have h' : astLookup s.StructAST v.Name = none := h
    show ∃ c frag, (rubyGroup tree s v).StructAST = (v.Name, c) :: s.StructAST ∧
      (rubyGroup tree s v).Field = s.Field ++ frag
    unfold rubyGroup
    rw [if_pos h']
    exact ⟨_, _, rfl, rfl⟩
  | ofAttributeGroup v =>
    have h' : astLookup s.StructAST v.Name = none := h
    show ∃ c frag, (rubyAttributeGroup tree s v).StructAST = (v.Name, c) :: s.StructAST ∧
      (rubyAttributeGroup tree s v).Field = s.Field ++ frag
    unfold rubyAttributeGroup
    rw [if_pos h']
    exact ⟨_, _, rfl, rfl⟩
  | ofElement v =>
    have h' : astLookup s.StructAST v.Name = none := h
    show ∃ c frag, (rubyElement tree s v).StructAST = (v.Name, c) :: s.StructAST ∧
      (rubyElement tree s v).Field = s.Field ++ frag
    unfold rubyElement
    rw [if_pos h']
    exact ⟨_, _, rfl, rfl⟩
  | ofAttribute v =>
    have h' : astLookup s.StructAST v.Name = none := h
    show ∃ c frag, (rubyAttribute tree s v).StructAST = (v.Name, c) :: s.StructAST ∧
      (rubyAttribute tree s v).Field = s.Field ++ frag
    unfold rubyAttribute
    rw [if_pos h']
    exact ⟨_, _, rfl, rfl⟩

/-- Processing any node preserves an existing cache entry unchanged. -/
theorem processNode_mono (tree : List ProtoNode) (s : GenState) (nd : ProtoNode)
    (n w : String) (h : astLookup s.StructAST n = some w) :
    astLookup (processNode tree s nd).StructAST n = some w := by
  by_cases hc : astLookup s.StructAST nd.name = none
  · obtain ⟨c, frag, hast, _⟩ := processNode_fresh tree s nd hc
    rw [hast]
    exact astLookup_insert_other hc h
  · rw [processNode_cached tree s nd hc]
    exact h

/-- Continuing a pass preserves an existing cache entry unchanged. -/
theorem runPassFrom_mono (tree : List ProtoNode) (n w : String) :
    ∀ (nodes : List ProtoNode) (s : GenState), astLookup s.StructAST n = some w →
      astLookup (runPassFrom tree s nodes).StructAST n = some w := by
  intro nodes
  induction nodes with
  | nil => intro s h; exact h
  | cons nd rest ih =>
    intro s h
    show astLookup (runPassFrom tree (processNode tree s nd) rest).StructAST n = some w
    exact ih _ (processNode_mono tree s nd n w h)

/-- Number of pass steps that emit a declaration for the given schema name:
    a step emits exactly when its node's name misses the StructAST cache
    (processNode_fresh / processNode_cached). -/
def emitCountFrom (tree : List ProtoNode) (s : GenState) (nodes : List ProtoNode)
    (n : String) : Nat :=
  match nodes with
  | [] => 0
  | nd :: rest =>
    (if nd.name = n ∧ astLookup s.StructAST nd.name = none then 1 else 0) +
      emitCountFrom tree (processNode tree s nd) rest n

/-- Emission count for one full pass from the empty state. -/
def emitCount (tree : List ProtoNode) (n : String) : Nat :=
  emitCountFrom tree initGenState tree n

/-- Once a name is cached, the rest of the pass emits nothing for it. -/
theorem emitCountFrom_cached (tree : List ProtoNode) (n : String) :
    ∀ (nodes : List ProtoNode) (s : GenState) (w : String),
      astLookup s.StructAST n = some w → emitCountFrom tree s nodes n = 0 := by
  intro nodes
  induction nodes with
  | nil => intro s w _; rfl
  | cons nd rest ih =>
    intro s w h
    have hng : ¬(nd.name = n ∧ astLookup s.StructAST nd.name = none) := by
      rintro ⟨h1, h2⟩
      rw [h1, h] at h2
      exact Option.noConfusion h2
    unfold emitCountFrom
    rw [if_neg hng]
    rw [ih _ w (processNode_mono tree s nd n w h)]

/-- At most one step of any pass suffix emits a declaration for a name. -/
theorem emitCountFrom_le_one (tree : List ProtoNode) (n : String) :
    ∀ (nodes : List ProtoNode) (s : GenState), emitCountFrom tree s nodes n ≤ 1 := by
  intro nodes
  induction nodes with
  | nil => intro s; exact Nat.zero_le 1
  | cons nd rest ih =>
    intro s
    unfold emitCountFrom
    by_cases hc : nd.name = n ∧ astLookup s.StructAST nd.name = none
    · rw [if_pos hc]
      obtain ⟨c, frag, hast, _⟩ := processNode_fresh tree s nd hc.2
      have hcached : astLookup (processNode tree s nd).StructAST n = some c := by
        rw [hast, ← hc.1, astLookup_cons, if_pos rfl]
      rw [emitCountFrom_cached tree n rest _ c hcached]
    · rw [if_neg hc]
      exact Nat.le_trans (Nat.le_of_eq (Nat.zero_add _)) (ih _)

/- ===================== Claim theorems ===================== -/

/-- C1: GenRuby is claimed to return a non-nil error whenever creating the
    output file or writing to it fails, and nil only when both succeed.
    The code violates the write half: ruby.go line 52 discards the result
    of f.Write and line 53 returns the err variable still holding nil from
    the successful os.Create, so a failed write yields a nil return.  A
    failed create is propagated as claimed. -/
theorem genRuby_write_error_dropped :
    genRubyIOResult none (some "disk full") = none ∧
    genRubyIOResult (some "create failed") none = some "create failed" :=
  ⟨rfl, rfl⟩

/-- Proto tree for the nondeterminism demonstration: one union SimpleType
    whose member map enumerates as USD then EUR. -/
def c2TreeA : List ProtoNode :=
  [.ofSimpleType ⟨"Currency", "", "", [("USD", ""), ("EUR", "")], false, true⟩]

/-- The same proto tree, the member map enumerated as EUR then USD. -/
def c2TreeB : List ProtoNode :=
  [.ofSimpleType ⟨"Currency", "", "", [("EUR", ""), ("USD", "")], false, true⟩]

/-- C2: generation is claimed byte-identical across two runs over the same
    proto tree, including union SimpleTypes with two or more members.  The
    union members are emitted by ranging over a Go map (ruby.go line 106),
    whose enumeration order is unspecified and varies between runs; the two
    orders of the same two-entry member map yield different accumulated
    output, so two runs over the same tree need not agree byte-for-byte. -/
theorem genRuby_union_member_order_changes_output :
    (∃ va vb : SimpleType, c2TreeA = [.ofSimpleType va] ∧ c2TreeB = [.ofSimpleType vb] ∧
      va.Name = vb.Name ∧ va.Doc = vb.Doc ∧ va.Base = vb.Base ∧ va.List = vb.List ∧
      va.Union = vb.Union ∧ va.MemberTypes.Perm vb.MemberTypes) ∧
    (runPass c2TreeA).Field ≠ (runPass c2TreeB).Field := by
  constructor
  · exact ⟨_, _, rfl, rfl, rfl, rfl, rfl, rfl, rfl,
      List.Perm.swap ("EUR", "") ("USD", "") []⟩
  · decide

/-- Proto tree in which an Attribute named X precedes a non-list non-union
    SimpleType named X. -/
def c3Tree : List ProtoNode :=
  [.ofAttribute ⟨"X", "", "T1", false⟩,
   .ofSimpleType ⟨"X", "", "B1", [], false, false⟩]

/-- C3 counterexample: the claim says a matching SimpleType wins over a
    matching Attribute regardless of the nodes' positions; in this tree a
    non-list non-union SimpleType named X with base B1 exists, yet the scan
    returns the earlier Attribute's type T1. -/
theorem getBase_attribute_shadows_simpleType :
    (∃ v : SimpleType, ProtoNode.ofSimpleType v ∈ c3Tree ∧ v.Name = "X" ∧
      v.List = false ∧ v.Union = false ∧ v.Base = "B1") ∧
    getBasefromSimpleType "X" c3Tree = "T1" ∧ ("T1" : String) ≠ "B1" :=
  ⟨⟨⟨"X", "", "B1", [], false, false⟩,
    List.Mem.tail _ (List.Mem.head _), rfl, rfl, rfl, rfl⟩, rfl, by decide⟩

/-- C3, amended: getBasefromSimpleType performs one linear scan and returns
    the contribution of the first node of any matching kind in tree order —
    a non-list non-union SimpleType yielding its base, or an Attribute or
    Element yielding its type — and the name itself when no node matches;
    an Attribute or Element earlier in the tree therefore shadows a later
    SimpleType. -/
theorem getBase_eq_first_match_scan (name : String) (tree : List ProtoNode) :
    getBasefromSimpleType name tree = (tree.findSome? (nodeBaseMatch name)).getD name := by
  induction tree with
  | nil => rfl
  | cons nd rest ih =>
    cases nd with
    | ofSimpleType v =>
      by_cases h : v.List = false ∧ v.Union = false ∧ v.Name = name
      · simp [getBasefromSimpleType, List.findSome?, nodeBaseMatch, h]
      · simp [getBasefromSimpleType, List.findSome?, nodeBaseMatch, h, ih]
    | ofComplexType v =>
      simp [getBasefromSimpleType, List.findSome?, nodeBaseMatch, ih]
    | ofGroup v =>
      simp [getBasefromSimpleType, List.findSome?, nodeBaseMatch, ih]
    | ofAttributeGroup v =>
      simp [getBasefromSimpleType, List.findSome?, nodeBaseMatch, ih]
    | ofElement v =>
      by_cases h : v.Name = name
      · simp [getBasefromSimpleType, List.findSome?, nodeBaseMatch, h]
      · simp [getBasefromSimpleType, List.findSome?, nodeBaseMatch, h, ih]
    | ofAttribute v =>
      by_cases h : v.Name = name
      · simp [getBasefromSimpleType, List.findSome?, nodeBaseMatch, h]
      · simp [getBasefromSimpleType, List.findSome?, nodeBaseMatch, h, ih]

/-- Top-level element whose raw name differs from its computed identifier. -/
def c4Elem : Element := ⟨"customer-id", "", "string", false⟩

/-- C4 counterexample: RubyElement computes identifier Customerid for the
    raw name customer-id, so the two differ, yet the emitted declaration
    never mentions the raw name at all — the raw schema name cannot occur
    as a serialization tag because RubyElement (unlike the four container
    kinds) emits no tag line. -/
theorem rubyElement_renamed_emits_no_tag :
    genRubyFieldName "customer-id" ≠ "customer-id" ∧
    strContains (rubyElement [] initGenState c4Elem).Field "customer-id" = false := by
  exact ⟨by decide, by decide⟩

/-- C4, amended: the serialization tag carrying the raw schema name is
    emitted exactly by the container kinds — ComplexType, Group,
    AttributeGroup and union SimpleTypes — whenever the computed identifier
    differs from the raw name (their content then starts with the tag
    line); top-level Element and Attribute declarations never carry one. -/
theorem tag_emitted_by_container_kinds (tree : List ProtoNode) (ct : ComplexType)
    (g : Group) (ag : AttributeGroup) (st : SimpleType) :
    (genRubyFieldName ct.Name ≠ ct.Name →
      ∃ rest, rubyComplexTypeContent tree ct = rubyTag ct.Name ++ rest) ∧
    (genRubyFieldName g.Name ≠ g.Name →
      ∃ rest, rubyGroupContent tree g = rubyTag g.Name ++ rest) ∧
    (genRubyFieldName ag.Name ≠ ag.Name →
      ∃ rest, rubyAttributeGroupContent tree ag = rubyTag ag.Name ++ rest) ∧
    (genRubyFieldName st.Name ≠ st.Name →
      ∃ rest, rubyUnionContent tree st = rubyTag st.Name ++ rest) := by
  refine
    ⟨fun h => ⟨String.join (ct.AttributeGroups.map (ctAttrGroupLine tree)) ++
        (String.join (ct.Attributes.map (ctAttributeLine tree)) ++
          (String.join (ct.Groups.map (ctGroupLine tree)) ++
            (String.join (ct.Elements.map (ctElementLine tree)) ++ "\tend\n"))), ?_⟩,
     fun h => ⟨String.join (g.Elements.map (groupElementLine tree)) ++
        (String.join (g.Groups.map (groupGroupLine tree)) ++ "\tend\n"), ?_⟩,
     fun h => ⟨String.join (ag.Attributes.map (agAttributeLine tree)) ++ "\tend\n", ?_⟩,
     fun h => ⟨String.join (st.MemberTypes.map (unionMemberLine tree)) ++ "\tend\n", ?_⟩⟩
  · unfold rubyComplexTypeContent
    rw [if_pos h]
  · unfold rubyGroupContent
    rw [if_pos h]
  · unfold rubyAttributeGroupContent
    rw [if_pos h]
  · unfold rubyUnionContent
    rw [if_pos h]

/-- Closed instance of the amended C4 theorem at a renamed ComplexType. -/
theorem tag_emitted_by_container_kinds_witness :
    genRubyFieldName "a-b" ≠ "a-b" ∧
    (∃ rest, rubyComplexTypeContent [] ⟨"a-b", "", [], [], [], []⟩ =
      rubyTag "a-b" ++ rest) :=
  ⟨by decide,
   (tag_emitted_by_container_kinds [] ⟨"a-b", "", [], [], [], []⟩
     (Group.mk "x" "" "" false [] []) ⟨"x", "", "", []⟩
     ⟨"x", "", "", [], false, false⟩).1 (by decide)⟩

/-- Proto tree with a user-defined SimpleType that reuses the XSD built-in
    name positiveInteger. -/
def c5Tree : List ProtoNode :=
  [.ofSimpleType ⟨"positiveInteger", "", "string", [], false, false⟩]

/-- C5 counterexample: the Built-in Type Table maps positiveInteger to the
    Ruby spelling Integer, but the Ruby field-type computation resolves
    through the proto tree first (ruby.go always wraps
    getBasefromSimpleType), never consults the table, and so returns string
    when a user node named positiveInteger is present and PositiveInteger
    when none is — in neither case the table's spelling, and the user node
    does influence the result. -/
theorem fieldType_scans_tree_before_buildin :
    getBuildInTypeByLang "positiveInteger" "Ruby" = some ("Integer", true) ∧
    rubyFieldTypeOf "positiveInteger" c5Tree = "string" ∧
    rubyFieldTypeOf "positiveInteger" [] = "PositiveInteger" ∧
    ("string" : String) ≠ "Integer" ∧ ("PositiveInteger" : String) ≠ "Integer" := by
  exact ⟨by decide, by decide, by decide, by decide, by decide⟩

/-- C5, amended: the only spelling set the Ruby generator short-circuits on
    is its own rubyBuildinType set of Ruby spellings, which genRubyFieldType
    returns verbatim with no access to the proto tree; the tree scan happens
    before this check at every call site, so nodes sharing an XSD built-in
    name can still influence the composed result (see the counterexample). -/
theorem genRubyFieldType_buildin_verbatim (name : String)
    (h : rubyBuildinType.contains name = true) : genRubyFieldType name = name := by
  unfold genRubyFieldType
  rw [if_pos h]

/-- Closed instance of the verbatim built-in theorem. -/
theorem genRubyFieldType_buildin_verbatim_witness :
    rubyBuildinType.contains "Integer" = true ∧ genRubyFieldType "Integer" = "Integer" :=
  ⟨by decide, genRubyFieldType_buildin_verbatim "Integer" (by decide)⟩

/-- A successful table lookup comes from a table entry. -/
theorem tableLookup_mem :
    ∀ (l : List (String × List String)) (k : String) (row : List String),
      tableLookup l k = some row → (k, row) ∈ l := by
  intro l
  induction l with
  | nil => intro k row h; exact Option.noConfusion h
  | cons p rest ih =>
    obtain ⟨k', v⟩ := p
    intro k row h
    unfold tableLookup at h
    by_cases he : k' = k
    · rw [if_pos he] at h
      rw [← he, Option.some_inj.mp h]
      exact List.Mem.head _
    · rw [if_neg he] at h
      exact List.Mem.tail _ (ih k row h)

/-- C9: getBuildInTypeByLang treats any unrecognized language as column 0
    (the Go column) because a Go map read of an absent key yields the zero
    value; every row of BuildInTypes has exactly six entries and every
    language index is at most five, so the row indexing never goes out of
    bounds and a recognized XSD type name always yields ok = true. -/
theorem getBuildInTypeByLang_unknown_lang_defaults_go :
    (∀ value lang, lang ≠ "Go" → lang ≠ "TypeScript" → lang ≠ "C" → lang ≠ "Java" →
      lang ≠ "Rust" → lang ≠ "Ruby" →
      getBuildInTypeByLang value lang = getBuildInTypeByLang value "Go") ∧
    (∀ p ∈ BuildInTypes, p.2.length = 6) ∧
    (∀ lang, supportLangIdx lang ≤ 5) ∧
    (∀ value lang row, tableLookup BuildInTypes value = some row →
      ∃ t, getBuildInTypeByLang value lang = some (t, true)) := by
  have hrows : ∀ p ∈ BuildInTypes, p.2.length = 6 := by decide
  have hidx : ∀ lang, supportLangIdx lang ≤ 5 := by
    intro lang
    unfold supportLangIdx
    split_ifs <;> omega
  refine ⟨?_, hrows, hidx, ?_⟩
  · intro value lang h1 h2 h3 h4 h5 h6
    have hl : supportLangIdx lang = supportLangIdx "Go" := by
      simp [supportLangIdx, h1, h2, h3, h4, h5, h6]
    unfold getBuildInTypeByLang
    rw [hl]
  · intro value lang row h
    have hlen : row.length = 6 := hrows _ (tableLookup_mem BuildInTypes value row h)
    have hlt : supportLangIdx lang < row.length := by
      rw [hlen]
      exact Nat.lt_succ_of_le (hidx lang)
    cases hx : row.get? (supportLangIdx lang) with
    | none => exact absurd (List.get?_eq_none.mp hx) (Nat.not_le.mpr hlt)
    | some t =>
      refine ⟨t, ?_⟩
      unfold getBuildInTypeByLang
      rw [h]
      show Option.map (fun t => (t, true)) (row.get? (supportLangIdx lang)) = some (t, true)
      rw [hx]
      rfl

/-- Closed instance of the unknown-language theorem at Python and int. -/
theorem getBuildInTypeByLang_unknown_lang_defaults_go_witness :
    getBuildInTypeByLang "int" "Python" = getBuildInTypeByLang "int" "Go" ∧
    (∃ t, getBuildInTypeByLang "int" "Python" = some (t, true)) :=
  ⟨getBuildInTypeByLang_unknown_lang_defaults_go.1 "int" "Python"
     (by decide) (by decide) (by decide) (by decide) (by decide) (by decide),
   getBuildInTypeByLang_unknown_lang_defaults_go.2.2.2 "int" "Python"
     ["int", "number", "int", "Integer", "i32", "Integer"] (by decide)⟩

/-- C10: genRubyFieldType never returns the empty string; whenever the name
    is not a Ruby built-in spelling and its normalisation is empty — the
    empty input in particular — the default "String" is returned. -/
theorem genRubyFieldType_never_empty (name : String) :
    genRubyFieldType name ≠ "" ∧
    (rubyBuildinType.contains name = false → rubyNormalize name = "" →
      genRubyFieldType name = "String") := by
  constructor
  · intro hempty
    unfold genRubyFieldType at hempty
    by_cases h : rubyBuildinType.contains name = true
    · rw [if_pos h] at hempty
      rw [hempty] at h
      exact absurd h (by decide)
    · rw [if_neg h] at hempty
      by_cases h2 : rubyNormalize name ≠ ""
      · rw [if_pos h2] at hempty
        exact h2 hempty
      · rw [if_neg h2] at hempty
        exact absurd hempty (by decide)
  · intro h1 h2
    have hb : ¬(rubyBuildinType.contains name = true) := fun hc => by
      rw [h1] at hc
      exact Bool.noConfusion hc
    have hn : ¬(rubyNormalize name ≠ "") := fun hne => hne h2
    unfold genRubyFieldType
    rw [if_neg hb, if_neg hn]

/-- Closed instance of the never-empty theorem at the empty input. -/
theorem genRubyFieldType_never_empty_witness :
    genRubyFieldType "" ≠ "" ∧ genRubyFieldType "" = "String" :=
  ⟨(genRubyFieldType_never_empty "").1,
   (genRubyFieldType_never_empty "").2 (by decide) (by decide)⟩

/-- C6: during one generation pass at most one step emits a declaration for
    any given schema name (a step emits exactly when its node's name misses
    the StructAST cache, by processNode_fresh and processNode_cached), and
    a cache entry, once stored, is never overwritten for the rest of the
    pass — so the emitted declaration for a name is unique and independent
    of how many further nodes or references carry that name. -/
theorem ruby_emission_idempotent (tree : List ProtoNode) (n : String) :
    emitCount tree n ≤ 1 ∧
    (∀ (s : GenState) (w : String) (rest : List ProtoNode),
      astLookup s.StructAST n = some w →
      astLookup (runPassFrom tree s rest).StructAST n = some w) :=
  ⟨emitCountFrom_le_one tree n tree initGenState,
   fun s w rest h => runPassFrom_mono tree n w rest s h⟩

/-- Proto tree for the idempotence witness: two nodes named Code. -/
def c6Tree : List ProtoNode :=
  [.ofElement ⟨"Code", "", "string", false⟩,
   .ofSimpleType ⟨"Code", "", "string", [], false, false⟩]

/-- Closed instance of the idempotence theorem. -/
theorem ruby_emission_idempotent_witness :
    emitCount c6Tree "Code" ≤ 1 ∧
    astLookup (runPassFrom c6Tree ⟨[("Code", " < string; ")], "", false⟩
      c6Tree).StructAST "Code" = some " < string; " :=
  ⟨(ruby_emission_idempotent c6Tree "Code").1,
   (ruby_emission_idempotent c6Tree "Code").2 ⟨[("Code", " < string; ")], "", false⟩
     " < string; " c6Tree (by decide)⟩

/-- C8: the StructAST cache is keyed by the raw schema name alone and is
    shared by all six construct kinds: after any node with a fresh name is
    processed, processing any further node of any kind carrying the same
    name — with any construct-specific payload — leaves the generation
    state completely unchanged (no emission, silent skip). -/
theorem structAST_shared_across_kinds (tree : List ProtoNode) (s : GenState)
    (nd1 nd2 : ProtoNode) (hname : nd1.name = nd2.name)
    (hfresh : astLookup s.StructAST nd1.name = none) :
    processNode tree (processNode tree s nd1) nd2 = processNode tree s nd1 := by
  obtain ⟨c, frag, hast, _⟩ := processNode_fresh tree s nd1 hfresh
  apply processNode_cached
  rw [← hname, hast, astLookup_cons, if_pos rfl]
  exact fun hc => Option.noConfusion hc

/-- Element node for the shared-cache witness. -/
def c8Elem : ProtoNode := .ofElement ⟨"Code", "", "string", false⟩

/-- SimpleType node of the same name for the shared-cache witness. -/
def c8ST : ProtoNode := .ofSimpleType ⟨"Code", "", "integer", [], false, false⟩

/-- Closed instance of the shared-cache theorem: a SimpleType is silently
    skipped because an Element of the same name was emitted first. -/
theorem structAST_shared_across_kinds_witness :
    processNode [] (processNode [] initGenState c8Elem) c8ST =
      processNode [] initGenState c8Elem :=
  structAST_shared_across_kinds [] initGenState c8Elem c8ST (by decide) (by decide)

/-- Group with one element member whose plurality flag is set. -/
def c7GroupPlural : Group := Group.mk "g1" "" "" false [⟨"item", "", "string", true⟩] []

/-- The same group with the member's plurality flag cleared. -/
def c7GroupSingular : Group := Group.mk "g1" "" "" false [⟨"item", "", "string", false⟩] []

/-- ComplexType with one group reference whose plurality flag is set. -/
def c7CTPlural : ComplexType := ⟨"ct1", "", [], [], [Group.mk "g2" "" "ref" true [] []], []⟩

/-- The same complex type with the group reference's flag cleared. -/
def c7CTSingular : ComplexType := ⟨"ct1", "", [], [], [Group.mk "g2" "" "ref" false [] []], []⟩

/-- C7 counterexample: for element members of a Group and for group
    references of a ComplexType, the Plural branch assigns the empty string
    (ruby.go lines 152-158, 184-199), so setting the flag changes nothing:
    the emissions with the flag set and cleared are identical, and the
    flagged emission contains neither of the repeated representations
    (has_many or Array) used elsewhere. -/
theorem group_member_plurality_not_surfaced :
    rubyGroup [] initGenState c7GroupPlural = rubyGroup [] initGenState c7GroupSingular ∧
    rubyComplexType [] initGenState c7CTPlural = rubyComplexType [] initGenState c7CTSingular ∧
    strContains (rubyGroupContent [] c7GroupPlural) "has_many" = false ∧
    strContains (rubyGroupContent [] c7GroupPlural) "Array" = false :=
  ⟨rfl, rfl, by decide, by decide⟩

/-- Strings of different lengths are different. -/
theorem ne_of_length_ne {a b : String} (h : a.length ≠ b.length) : a ≠ b :=
  fun he => h (congrArg String.length he)

/-- C7, amended: the plurality flag surfaces in the emission exactly for
    attributes and elements of a ComplexType (has_many versus attribute or
    element) and for top-level Element and Attribute aliases (Array versus
    the resolved type); it does not surface for group references of a
    ComplexType nor for element or nested-group members of a Group, whose
    emitted lines are identical whether or not the flag is set. -/
theorem plurality_surfacing_by_kind (tree : List ProtoNode) :
    (∀ n d t, ctAttributeLine tree ⟨n, d, t, true⟩ ≠ ctAttributeLine tree ⟨n, d, t, false⟩) ∧
    (∀ n d t, ctElementLine tree ⟨n, d, t, true⟩ ≠ ctElementLine tree ⟨n, d, t, false⟩) ∧
    (∀ n d r el gs, ctGroupLine tree (Group.mk n d r true el gs) =
      ctGroupLine tree (Group.mk n d r false el gs)) ∧
    (∀ n d t, groupElementLine tree ⟨n, d, t, true⟩ = groupElementLine tree ⟨n, d, t, false⟩) ∧
    (∀ n d r el gs, groupGroupLine tree (Group.mk n d r true el gs) =
      groupGroupLine tree (Group.mk n d r false el gs)) ∧
    (∀ n d t, rubyElementContent tree ⟨n, d, t, true⟩ = " < Array; " ∧
      rubyElementContent tree ⟨n, d, t, false⟩ = " < " ++ rubyFieldTypeOf t tree ++ "; ") ∧
    (∀ n d t, rubyAttributeContent tree ⟨n, d, t, true⟩ = " < Array; " ∧
      rubyAttributeContent tree ⟨n, d, t, false⟩ = " < " ++ rubyFieldTypeOf t tree ++ "; ") := by
  refine ⟨?_, ?_, fun n d r el gs => rfl, fun n d t => rfl, fun n d r el gs => rfl,
    fun n d t => ⟨rfl, rfl⟩, fun n d t => ⟨rfl, rfl⟩⟩
  · intro n d t h
    have h1 : ctAttributeLine tree ⟨n, d, t, true⟩ =
        "\t\t" ++ "has_many" ++ " :" ++ ToSnakeCase (genRubyFieldName n) ++ ", \x27OTA::" ++
          rubyFieldTypeOf t tree ++ "\x27, tag: \x27" ++ n ++ "\x27\n" := rfl
    have h2 : ctAttributeLine tree ⟨n, d, t, false⟩ =
        "\t\t" ++ "attribute" ++ " :" ++ ToSnakeCase (genRubyFieldName n) ++ ", \x27OTA::" ++
          rubyFieldTypeOf t tree ++ "\x27, tag: \x27" ++ n ++ "\x27\n" := rfl
    rw [h1, h2] at h
    have hlen := congrArg String.length h
    simp only [String.length_append] at hlen
    have e1 : ("has_many" : String).length = 8 := rfl
    have e2 : ("attribute" : String).length = 9 := rfl
    rw [e1, e2] at hlen
    omega
  · intro n d t h
    have h1 : ctElementLine tree ⟨n, d, t, true⟩ =
        "\t\t" ++ "has_many" ++ " :" ++ ToSnakeCase (genRubyFieldName n) ++ ", \x27OTA::" ++
          rubyFieldTypeOf t tree ++ "\x27, tag: \x27" ++ n ++ "\x27\n" := rfl
    have h2 : ctElementLine tree ⟨n, d, t, false⟩ =
        "\t\t" ++ "element" ++ " :" ++ ToSnakeCase (genRubyFieldName n) ++ ", \x27OTA::" ++
          rubyFieldTypeOf t tree ++ "\x27, tag: \x27" ++ n ++ "\x27\n" := rfl
    rw [h1, h2] at h
    have hlen := congrArg String.length h
    simp only [String.length_append] at hlen
    have e1 : ("has_many" : String).length = 8 := rfl
    have e2 : ("element" : String).length = 7 := rfl
    rw [e1, e2] at hlen
    omega

/-- Closed instance of the plurality-surfacing theorem. -/
theorem plurality_surfacing_by_kind_witness :
    ctAttributeLine [] ⟨"a", "", "t", true⟩ ≠ ctAttributeLine [] ⟨"a", "", "t", false⟩ ∧
    ctGroupLine [] (Group.mk "g" "" "r" true [] []) =
      ctGroupLine [] (Group.mk "g" "" "r" false [] []) ∧
    rubyElementContent [] ⟨"e", "", "t", true⟩ = " < Array; " :=
  ⟨(plurality_surfacing_by_kind []).1 "a" "" "t",
   (plurality_surfacing_by_kind []).2.2.1 "g" "" "r" [] [],
   ((plurality_surfacing_by_kind []).2.2.2.2.2.1 "e" "" "t").1⟩

end Xgen

